import Mathlib

/-!
Verification of the natural-language specification of the
`natural-language-2-sql` repository against a shallow embedding of its
Python source (`src/tools.py`, `src/services/export_db_catalog.py`).

Strings are modelled as `List Char`; machinery mirrors the CPython string
primitives (`str.strip`, `str.lower`, `str.split`, `str.rfind`) and the
`re` module semantics (leftmost scan, greedy quantifiers with
backtracking) for the concrete regular expressions appearing in the
source.
-/

namespace NL2SQL

/-! ## Python string primitives -/

/-- ASCII whitespace recognised by Python `str.strip()` and by `re` `\s`
(we model the ASCII fragment). -/
def isPySpace (c : Char) : Bool :=
  c = ' ' || c = '\t' || c = '\n' || c = '\r' || c = '\u000b' || c = '\u000c'

/-- `re` word character `\w` (ASCII fragment): letters, digits, underscore. -/
def isWordChar (c : Char) : Bool :=
  ('a' ≤ c && c ≤ 'z') || ('A' ≤ c && c ≤ 'Z') || ('0' ≤ c && c ≤ '9') || c = '_'

def isDigitChar (c : Char) : Bool :=
  '0' ≤ c && c ≤ '9'

def isAlphaChar (c : Char) : Bool :=
  ('a' ≤ c && c ≤ 'z') || ('A' ≤ c && c ≤ 'Z')

/-- Uppercase/lowercase ASCII pairing used to model Python `str.lower()`
without `Char` arithmetic. -/
def lowerPairs : List (Char × Char) :=
  [('A','a'),('B','b'),('C','c'),('D','d'),('E','e'),('F','f'),('G','g'),
   ('H','h'),('I','i'),('J','j'),('K','k'),('L','l'),('M','m'),('N','n'),
   ('O','o'),('P','p'),('Q','q'),('R','r'),('S','s'),('T','t'),('U','u'),
   ('V','v'),('W','w'),('X','x'),('Y','y'),('Z','z')]

/-- `c` is an ASCII uppercase letter. -/
def isUpperA (c : Char) : Bool :=
  lowerPairs.any (fun p => p.1 = c)

/-- ASCII lowering of one character (identity on everything else). -/
def asciiLower (c : Char) : Char :=
  ((lowerPairs.find? (fun p => p.1 = c)).map (fun p => p.2)).getD c

/-- Python `str.lower()` (ASCII fragment). -/
def pyLower (s : List Char) : List Char :=
  s.map asciiLower

/-- Python `str.lstrip()`. -/
def pyLstrip (s : List Char) : List Char :=
  s.dropWhile isPySpace

/-- Python `str.rstrip()`. -/
def pyRstrip (s : List Char) : List Char :=
  (s.reverse.dropWhile isPySpace).reverse

/-- Python `str.strip()`. -/
def pyStrip (s : List Char) : List Char :=
  pyLstrip (pyRstrip s)

/-- Python `str.rstrip(";")`: remove every trailing semicolon. -/
def rstripSemis (s : List Char) : List Char :=
  (s.reverse.dropWhile (fun c => c = ';')).reverse

/-- Python `str.split(sep)` for a one-character separator: always returns a
non-empty list of segments. -/
def pySplit (sep : Char) : List Char → List (List Char)
  | [] => [[]]
  | c :: rest =>
    if c = sep then [] :: pySplit sep rest
    else
      match pySplit sep rest with
      | l :: ls => (c :: l) :: ls
      | [] => [[c]]

/-- Python `sep.join(segments)` for a one-character separator. -/
def joinSep (sep : Char) : List (List Char) → List Char
  | [] => []
  | [l] => l
  | l :: ls => l ++ sep :: joinSep sep ls

/-- Case-insensitive comparison of a text prefix against an ASCII pattern. -/
def startsWithCI : List Char → List Char → Bool
  | [], _ => true
  | _ :: _, [] => false
  | p :: ps, c :: cs => asciiLower c = p && startsWithCI ps cs

/-! ## The SQL Gatekeeper (`_validate_select_only`, src/tools.py lines 55-87) -/

/-- The text starts with a triple-backtick fence marker (`sql.startswith('\x60\x60\x60')`). -/
def startsWithBt3 (s : List Char) : Bool :=
  s.take 3 = "```".toList

/-- A triple-backtick occurs at index `i`. -/
def btAt (s : List Char) (i : Nat) : Bool :=
  (s.drop i).take 3 = "```".toList

/-- Python `sql.rfind('\x60\x60\x60')`: the largest index where a triple
backtick occurs, `none` when there is none (Python returns `-1`). -/
def rfindBt3 (s : List Char) : Option Nat :=
  ((List.range (s.length - 2)).filter (fun i => btAt s i)).getLast?

/-- `s[a:b]` for `a ≤ b`. -/
def pySlice (a b : Nat) (s : List Char) : List Char :=
  (s.drop a).take (b - a)

/-- The language tags whose first fence line is dropped. -/
def fenceTags : List (List Char) :=
  ["sql".toList, "mysql".toList, "mariadb".toList]

/-- Markdown fence removal of `_validate_select_only` (src/tools.py
lines 60-72): when the text starts with a fence and a closing marker is
found past position 3, keep the interior, dropping a first line that is a
bare language tag; otherwise return the text unchanged. -/
def stripFences (sql : List Char) : List Char :=
  if startsWithBt3 sql then
    match rfindBt3 sql with
    | some em =>
      if 3 < em then
        let lines := pySplit '\n' (pyStrip (pySlice 3 em sql))
        match lines with
        | first :: rest =>
          if fenceTags.contains (pyLower (pyStrip first)) then
            pyStrip (joinSep '\n' rest)
          else
            pyStrip (joinSep '\n' (first :: rest))
        | [] => sql
      else sql
    | none => sql
  else sql

/-- `re.match(r"(?i)^\s*select\b", s)`: optional leading whitespace, the
word `select` case-insensitively, then a word boundary. -/
def matchesSelectB (s : List Char) : Bool :=
  let r := s.dropWhile isPySpace
  startsWithCI "select".toList r &&
    (match r.drop 6 with
     | [] => true
     | c :: _ => !isWordChar c)

/-- `\blimit\s+\d+\s*;?\s*$` anchored at the current position (`prev` is
the character before the position, for the word boundary). -/
def limitTailAt (prev : Option Char) (cs : List Char) : Bool :=
  (match prev with
   | none => true
   | some c => !isWordChar c) &&
  startsWithCI "limit".toList cs &&
  (let r1 := cs.drop 5
   let ws := r1.takeWhile isPySpace
   !ws.isEmpty &&
     (let r2 := r1.drop ws.length
      let ds := r2.takeWhile isDigitChar
      !ds.isEmpty &&
        (let r3 := (r2.drop ds.length).dropWhile isPySpace
         let r4 := match r3 with
           | ';' :: t => t
           | t => t
         (r4.dropWhile isPySpace).isEmpty)))

/-- `re.search(r"\blimit\s+\d+\s*;?\s*$", s, re.IGNORECASE)` as a Boolean. -/
def limitEndAux (prev : Option Char) : List Char → Bool
  | [] => limitTailAt prev []
  | c :: rest => limitTailAt prev (c :: rest) || limitEndAux (some c) rest

def limitEndB (s : List Char) : Bool :=
  limitEndAux none s

/-- The validation error raised for non-SELECT input. -/
def selectOnlyErr : List Char :=
  "Somente consultas SELECT são permitidas.".toList

/-- The statement-kind check and LIMIT injection of `_validate_select_only`
(src/tools.py lines 74-87), applied to the fence-stripped working text. -/
def validateFrom (n : List Char) : Except (List Char) (List Char) :=
  if matchesSelectB n then
    if limitEndB n then Except.ok n
    else Except.ok (rstripSemis (pyRstrip n) ++ " LIMIT 200;".toList)
  else Except.error selectOnlyErr

/-- `_validate_select_only` (src/tools.py lines 55-87): strip Markdown
fences, trim, require a leading SELECT, and guarantee a trailing LIMIT. -/
def validateSelectOnly (sql : List Char) : Except (List Char) (List Char) :=
  validateFrom (pyStrip (stripFences sql))

/-! ## Allow-list enforcement (`_enforce_allowed_tables`, src/tools.py lines 36-52) -/

/-- Identifier quoting characters of the token regex character class. -/
def isBracketQ (c : Char) : Bool :=
  ("`\"[]".toList).contains c

/-- `[\w.]` of the token regex. -/
def isWordDot (c : Char) : Bool :=
  isWordChar c || c = '.'

/-- Matches `(from|join)` literally at the current position (the scanned
text has already been lowercased by the caller). -/
def matchKw (cs : List Char) : Option (List Char) :=
  if cs.take 4 = "from".toList then some (cs.drop 4)
  else if cs.take 4 = "join".toList then some (cs.drop 4)
  else none

/-- One attempt of `re` pattern
`(from|join)\s+([\x60"\[\]]?[\w\.]+[\x60"\[\]]?)` at the current position:
returns the total number of characters consumed and the second capture
group. -/
def tokenAt (cs : List Char) : Option (Nat × List Char) :=
  match matchKw cs with
  | none => none
  | some r1 =>
    let ws := r1.takeWhile isPySpace
    if ws.isEmpty then none
    else
      let r2 := r1.drop ws.length
      match r2 with
      | [] => none
      | b :: r3 =>
        if isBracketQ b then
          let run := r3.takeWhile isWordDot
          if run.isEmpty then none
          else
            let r4 := r3.drop run.length
            match r4 with
            | b2 :: _ =>
              if isBracketQ b2 then
                some (4 + ws.length + (run.length + 2), b :: (run ++ [b2]))
              else
                some (4 + ws.length + (run.length + 1), b :: run)
            | [] => some (4 + ws.length + (run.length + 1), b :: run)
        else
          let run := r2.takeWhile isWordDot
          if run.isEmpty then none
          else
            let r4 := r2.drop run.length
            match r4 with
            | b2 :: _ =>
              if isBracketQ b2 then
                some (4 + ws.length + (run.length + 1), run ++ [b2])
              else
                some (4 + ws.length + run.length, run)
            | [] => some (4 + ws.length + run.length, run)

/-- `re.findall` scan for the token pattern: leftmost non-overlapping
matches, returning the captured identifier of each.  The fuel argument is
the length of the scanned text; every step consumes at least one
character. -/
def findTokensAux : Nat → List Char → List (List Char)
  | 0, _ => []
  | _, [] => []
  | fuel + 1, c :: rest =>
    match tokenAt (c :: rest) with
    | some (n + 1, g) => g :: findTokensAux fuel ((c :: rest).drop (n + 1))
    | _ => findTokensAux fuel rest

def findTokens (cs : List Char) : List (List Char) :=
  findTokensAux cs.length cs

/-- Python `str.strip("\x60"[]")`: remove quoting characters from both
ends. -/
def stripBrackets (s : List Char) : List Char :=
  ((s.dropWhile isBracketQ).reverse.dropWhile isBracketQ).reverse

/-- `tbl.strip('\x60"[]').split(".")[-1]`: the unquoted, schema-stripped
base name of a matched identifier. -/
def baseOf (tbl : List Char) : List Char :=
  (pySplit '.' (stripBrackets tbl)).getLastD []

/-- `{t.strip() for t in ALLOWED_TABLES if t}`. -/
def allowedSet (allowed : List (List Char)) : List (List Char) :=
  (allowed.filter (fun t => !t.isEmpty)).map pyStrip

/-- The error message prefix of the allow-list rejection. -/
def notAllowedMsg (base : List Char) : List Char :=
  "Tabela não permitida: ".toList ++ base

/-- The per-token check loop of `_enforce_allowed_tables`: raises on the
first token whose base name is outside the allow-list set. -/
def checkTokens (aset : List (List Char)) : List (List Char) → Except (List Char) Unit
  | [] => Except.ok ()
  | tbl :: rest =>
    let base := baseOf tbl
    if aset.contains base then checkTokens aset rest
    else Except.error (notAllowedMsg base)

/-- `_enforce_allowed_tables` (src/tools.py lines 36-52): with a non-empty
allow-list, lowercase the SQL, extract `FROM`/`JOIN` identifiers, and
reject the first one whose base name is not among the stripped allow-list
entries. -/
def enforceAllowedTables (allowed : List (List Char)) (sql : List Char) :
    Except (List Char) Unit :=
  if allowed.isEmpty then Except.ok ()
  else
    let lowered := pyLower sql
    checkTokens (allowedSet allowed) (findTokens lowered)

/-! ## Row values and the executor tools -/

/-- Driver/Python values flowing through rows and samples, modelled as a
tagged union (see spec §9).  Non-scalar payloads (floats, decimals,
dates, bytes, UUIDs) are carried as their canonical textual content,
which is all the embedded operations inspect. -/
inductive PyValue where
  | vNone : PyValue
  | vBool (b : Bool) : PyValue
  | vInt (n : Int) : PyValue
  | vFloat (repr : String) : PyValue
  | vDecimal (repr : String) : PyValue
  | vStr (s : List Char) : PyValue
  | vDate (iso : List Char) : PyValue
  | vDatetime (iso : List Char) : PyValue
  | vTime (iso : List Char) : PyValue
  | vTimedelta (total_seconds : String) : PyValue
  | vBytes (decoded : List Char) : PyValue
  | vUUID (s : List Char) : PyValue
  deriving DecidableEq, Repr

/-- A result row: ordered mapping from column name to value. -/
abbrev Row : Type := List (String × PyValue)

instance {ε α : Type} [DecidableEq ε] [DecidableEq α] : DecidableEq (Except ε α) := fun x y =>
  match x, y with
  | Except.ok a, Except.ok b =>
    if h : a = b then isTrue (by rw [h])
    else isFalse (fun hc => by cases hc; exact h rfl)
  | Except.error a, Except.error b =>
    if h : a = b then isTrue (by rw [h])
    else isFalse (fun hc => by cases hc; exact h rfl)
  | Except.ok _, Except.error _ => isFalse (fun hc => by cases hc)
  | Except.error _, Except.ok _ => isFalse (fun hc => by cases hc)

/-- A query execution result, as returned by `run_query`/`db_query`. -/
structure QueryResult where
  sql : List Char
  rows : List Row
  row_count : Nat
  deriving DecidableEq, Repr

/-- `run_query` (src/tools.py lines 15-25): validate, then connect and
execute.  The database is abstracted as `exec`; the second component
counts connections acquired during the call. -/
def runQuery (exec : List Char → List Row) (sql : List Char) :
    Except (List Char) QueryResult × Nat :=
  match validateSelectOnly sql with
  | Except.error e => (Except.error e, 0)
  | Except.ok safe =>
    let rows := exec safe
    (Except.ok ⟨safe, rows, rows.length⟩, 1)

/-- `db_query` (src/tools.py lines 139-153): allow-list enforcement, then
validation, then execution. -/
def dbQuery (allowed : List (List Char)) (exec : List Char → List Row)
    (sql : List Char) : Except (List Char) QueryResult × Nat :=
  match enforceAllowedTables allowed sql with
  | Except.error e => (Except.error e, 0)
  | Except.ok _ =>
    match validateSelectOnly sql with
    | Except.error e => (Except.error e, 0)
    | Except.ok safe =>
      let rows := exec safe
      (Except.ok ⟨safe, rows, rows.length⟩, 1)

/-- `hasattr(value, 'isoformat')` conversion applied per value by
`db_nl2sql_rows` (src/tools.py lines 193-196): date/datetime/time values
become their ISO string; every other value is left untouched. -/
def convertIsoValue : PyValue → PyValue
  | PyValue.vDate iso => PyValue.vStr iso
  | PyValue.vDatetime iso => PyValue.vStr iso
  | PyValue.vTime iso => PyValue.vStr iso
  | v => v

/-- `db_nl2sql_rows` (src/tools.py lines 156-200) after SQL generation:
the generated SQL (`genSql`, produced by the out-of-scope LLM chain) runs
through the same security steps, then rows are materialised with the
isoformat conversion.  The final `json.dumps` serialisation is outside the
model; the returned value is the row list it serialises. -/
def dbNl2SqlRows (allowed : List (List Char)) (exec : List Char → List Row)
    (genSql : List Char) : Except (List Char) (List Row) × Nat :=
  match enforceAllowedTables allowed genSql with
  | Except.error e => (Except.error e, 0)
  | Except.ok _ =>
    match validateSelectOnly genSql with
    | Except.error e => (Except.error e, 0)
    | Except.ok safe =>
      let rows := (exec safe).map (fun row => row.map (fun kv => (kv.1, convertIsoValue kv.2)))
      (Except.ok rows, 1)

/-! ## PII masking (src/services/export_db_catalog.py lines 82-102) -/

/-- `[A-Z0-9._%+-]` with `re.I`: the local part of `EMAIL_RE`. -/
def isEmailLocal (c : Char) : Bool :=
  isAlphaChar c || isDigitChar c || c = '.' || c = '_' || c = '%' || c = '+' || c = '-'

/-- `[A-Z0-9.-]` with `re.I`: the domain part of `EMAIL_RE`. -/
def isEmailDomain (c : Char) : Bool :=
  isAlphaChar c || isDigitChar c || c = '.' || c = '-'

/-- Inside the maximal domain-character run `ds`, the largest index `p ≥ 1`
where a dot is followed by at least two letters: the backtracking point of
`[A-Z0-9.-]+\.[A-Z]{2,}`. -/
def lastDotPos (ds : List Char) : Option Nat :=
  ((List.range ds.length).filter (fun p =>
    decide (1 ≤ p) &&
    (match ds.drop p with
     | '.' :: a :: b :: _ => isAlphaChar a && isAlphaChar b
     | _ => false))).getLast?

/-- `EMAIL_RE = re.compile(r"[A-Z0-9._%+-]+@[A-Z0-9.-]+\.[A-Z]{2,}", re.I)`
matched at the current position, returning the match length. -/
def matchEmailAt (_prev : Option Char) (cs : List Char) : Option Nat :=
  let loc := cs.takeWhile isEmailLocal
  if loc.isEmpty then none
  else
    match cs.drop loc.length with
    | '@' :: rest =>
      let ds := rest.takeWhile isEmailDomain
      match lastDotPos ds with
      | some p =>
        some (loc.length + 1 + p + 1 + ((ds.drop (p + 1)).takeWhile isAlphaChar).length)
      | none => none
    | _ => none

/-- Exactly `n` digits, returning the remainder. -/
def takeDigits (n : Nat) (cs : List Char) : Option (List Char) :=
  match n, cs with
  | 0, cs => some cs
  | _ + 1, [] => none
  | m + 1, c :: rest => if isDigitChar c then takeDigits m rest else none

/-- A word boundary holds between `prev` and the next character. -/
def wordBoundary (prev : Option Char) (next : Option Char) : Bool :=
  (match prev with | none => false | some c => isWordChar c) ≠
  (match next with | none => false | some c => isWordChar c)

/-- Greedy optional single character with backtracking: the candidate
remainders in the order the `re` engine tries them. -/
def optCharAlts (p : Char → Bool) (cs : List Char) : List (List Char) :=
  match cs with
  | c :: t => if p c then [t, cs] else [cs]
  | [] => [cs]

/-- `CPF_RE = re.compile(r"\b\d{3}\.?\d{3}\.?\d{3}-?\d{2}\b")` matched at
the current position. -/
def matchCpfAt (prev : Option Char) (cs : List Char) : Option Nat :=
  if !wordBoundary prev cs.head? then none
  else
    (takeDigits 3 cs).bind (fun r1 =>
      (optCharAlts (fun c => c = '.') r1).findSome? (fun r2 =>
        (takeDigits 3 r2).bind (fun r3 =>
          (optCharAlts (fun c => c = '.') r3).findSome? (fun r4 =>
            (takeDigits 3 r4).bind (fun r5 =>
              (optCharAlts (fun c => c = '-') r5).findSome? (fun r6 =>
                (takeDigits 2 r6).bind (fun r7 =>
                  match r7.head? with
                  | none => some (cs.length - r7.length)
                  | some c =>
                    if isWordChar c then none
                    else some (cs.length - r7.length))))))))

/-- `PHONE_RE = re.compile(r"\b(?:\+?55\s?)?(?:\(?\d{2}\)?\s?)?(?:9?\d{4}[-\s]?\d{4})\b")`
matched at the current position. -/
def matchPhoneAt (prev : Option Char) (cs : List Char) : Option Nat :=
  if !wordBoundary prev cs.head? then none
  else
    let altsA : List (List Char) :=
      ((optCharAlts (fun c => c = '+') cs).flatMap (fun r1 =>
        if r1.take 2 = "55".toList then optCharAlts isPySpace (r1.drop 2) else [])) ++ [cs]
    let altsB : List Char → List (List Char) := fun r =>
      ((optCharAlts (fun c => c = '(') r).flatMap (fun r1 =>
        match takeDigits 2 r1 with
        | some r2 => (optCharAlts (fun c => c = ')') r2).flatMap (optCharAlts isPySpace)
        | none => [])) ++ [r]
    let matchC : List Char → Option Nat := fun r =>
      (optCharAlts (fun c => c = '9') r).findSome? (fun r1 =>
        (takeDigits 4 r1).bind (fun r2 =>
          (optCharAlts (fun c => c = '-' || isPySpace c) r2).findSome? (fun r3 =>
            (takeDigits 4 r3).bind (fun r4 =>
              match r4.head? with
              | none => some (cs.length - r4.length)
              | some c =>
                if isWordChar c then none
                else some (cs.length - r4.length)))))
    altsA.findSome? (fun rA => (altsB rA).findSome? matchC)

/-- `re.sub(pattern, repl, s)` for a pattern that never matches the empty
string: leftmost non-overlapping matches, each replaced by `repl`; the
boundary context (`prev`) is taken from the original text.  The fuel
argument is the length of the scanned text; every step consumes at least
one character. -/
def pySubAux (m : Option Char → List Char → Option Nat) (repl : List Char) :
    Nat → Option Char → List Char → List Char
  | 0, _, _ => []
  | _, _, [] => []
  | fuel + 1, prev, c :: rest =>
    match m prev (c :: rest) with
    | some (n + 1) =>
      repl ++ pySubAux m repl fuel (some ((c :: rest).getD n c)) ((c :: rest).drop (n + 1))
    | _ => c :: pySubAux m repl fuel (some c) rest

def pySub (m : Option Char → List Char → Option Nat) (repl : List Char)
    (prev : Option Char) (s : List Char) : List Char :=
  pySubAux m repl s.length prev s

/-- `re.search(pattern, s) is not None` for the same matchers. -/
def reSearch (m : Option Char → List Char → Option Nat) :
    Option Char → List Char → Bool
  | prev, [] => (m prev []).isSome
  | prev, c :: rest => (m prev (c :: rest)).isSome || reSearch m (some c) rest

/-- The masked text contains an email match (`EMAIL_RE.search`). -/
def containsEmail (s : List Char) : Bool :=
  reSearch matchEmailAt none s

/-- The masked text contains a CPF match (`CPF_RE.search`). -/
def containsCpf (s : List Char) : Bool :=
  reSearch matchCpfAt none s

/-- `re.sub(r"\s+", " ", s)`: collapse every whitespace run to a single
space.  The fuel argument is the length of the scanned text. -/
def collapseWsAux : Nat → List Char → List Char
  | 0, _ => []
  | _, [] => []
  | fuel + 1, c :: rest =>
    if isPySpace c then ' ' :: collapseWsAux fuel (rest.dropWhile isPySpace)
    else c :: collapseWsAux fuel rest

def collapseWs (s : List Char) : List Char :=
  collapseWsAux s.length s

/-- `if max_len and len(s) > max_len: s = s[:max_len] + "…"`. -/
def truncateEll (max_len : Option Nat) (s : List Char) : List Char :=
  match max_len with
  | some n => if n ≠ 0 ∧ n < s.length then s.take n ++ ['…'] else s
  | none => s

/-- `json_fallback` (src/services/export_db_catalog.py lines 65-79):
normalise non-JSON-serialisable values; anything unknown falls back to
`str(o)`. -/
def jsonFallback : PyValue → PyValue
  | PyValue.vDatetime iso => PyValue.vStr iso
  | PyValue.vDate iso => PyValue.vStr iso
  | PyValue.vTime iso => PyValue.vStr iso
  | PyValue.vTimedelta secs => PyValue.vFloat secs
  | PyValue.vDecimal d => PyValue.vFloat d
  | PyValue.vBytes decoded => PyValue.vStr decoded
  | PyValue.vUUID s => PyValue.vStr s
  | PyValue.vStr s => PyValue.vStr s
  | PyValue.vNone => PyValue.vStr "None".toList
  | PyValue.vBool b => PyValue.vStr (if b then "True".toList else "False".toList)
  | PyValue.vInt n => PyValue.vStr (toString n).toList
  | PyValue.vFloat r => PyValue.vStr r.toList

/-- The textual payload of a `jsonFallback` result. -/
def strPayload : PyValue → List Char
  | PyValue.vStr s => s
  | _ => []

/-- `mask_pii_value` (src/services/export_db_catalog.py lines 88-102):
pass numbers, booleans and null through; mask emails, CPFs and phone
numbers in text; collapse whitespace; truncate with an ellipsis. -/
def maskPiiValue (v : PyValue) (max_len : Option Nat) : PyValue :=
  match v with
  | PyValue.vNone => PyValue.vNone
  | PyValue.vInt n => PyValue.vInt n
  | PyValue.vFloat r => PyValue.vFloat r
  | PyValue.vBool b => PyValue.vBool b
  | PyValue.vDecimal d => PyValue.vDecimal d
  | v =>
    let s := strPayload (jsonFallback v)
    let s1 := pySub matchEmailAt "[email]".toList none s
    let s2 := pySub matchCpfAt "[cpf]".toList none s1
    let s3 := pySub matchPhoneAt "[phone]".toList none s2
    let s4 := pyStrip (collapseWs s3)
    PyValue.vStr (truncateEll max_len s4)

/-! ## Foreign-key referential rule merge (src/services/export_db_catalog.py) -/

/-- One entry of the mapping produced by `load_fk_rules` (lines 105-123):
`UPDATE_RULE`/`DELETE_RULE` per constraint name (either may be NULL). -/
structure FkRule where
  on_update : Option String
  on_delete : Option String
  deriving DecidableEq, Repr

/-- A foreign-key record as assembled by `build_table_dict`
(lines 170-179) from the inspector's data, before the merge. -/
structure FkEntry where
  name : Option String
  columns : List String
  ref_schema : Option String
  ref_table : Option String
  ref_columns : List String
  on_update : Option String
  on_delete : Option String
  deriving DecidableEq, Repr

/-- Python falsiness of the option-of-string fields (`None` or `""`). -/
def isFalsyStr : Option String → Bool
  | none => true
  | some s => s = ""

/-- The merge of lines 180-185: when the rules mapping is non-empty and has
an entry for this constraint name, fill each falsy action field from it;
never touch a present value. -/
def applyFkRules (fk_rules : List (String × FkRule)) (e : FkEntry) : FkEntry :=
  if fk_rules.isEmpty then e
  else
    match e.name with
    | some n =>
      match fk_rules.lookup n with
      | some r =>
        { e with
          on_update := if isFalsyStr e.on_update then r.on_update else e.on_update,
          on_delete := if isFalsyStr e.on_delete then r.on_delete else e.on_delete }
      | none => e
    | none => e

/-- The `foreign_keys` portion of `build_table_dict` (lines 170-186): each
inspector record is merged with the referential-rule channel. -/
def buildForeignKeys (fk_rules : List (String × FkRule)) (fks : List FkEntry) :
    List FkEntry :=
  fks.map (applyFkRules fk_rules)

/-! ## Catalog export table loop (`export_db_catalog`, lines 275-341) -/

/-- A minimal table document: `build_table_dict` output as far as the
export loop is concerned (its name plus the merged foreign keys). -/
structure TableDict where
  name : List Char
  foreign_keys : List FkEntry
  deriving DecidableEq, Repr

/-- An element of the catalog's `tables` sequence: either a built table
document or the `{name, error}` degradation of the `except` branch. -/
inductive TableEntry where
  | table (d : TableDict) : TableEntry
  | errorEntry (name : List Char) (err : List Char) : TableEntry
  deriving DecidableEq, Repr

/-- The name under which an entry appears in the catalog. -/
def entryName : TableEntry → List Char
  | TableEntry.table d => d.name
  | TableEntry.errorEntry n _ => n

/-- The per-table loop of `export_db_catalog` (lines 316-339): a table is
built only when `ALLOWED_TABLES` is non-empty *and* contains it; a
per-table inspection failure degrades to an error entry.  The
introspection work of `build_table_dict` is abstracted as `build`. -/
def exportCatalogTables (allowed : List (List Char))
    (build : List Char → Except (List Char) TableDict) :
    List (List Char) → List TableEntry
  | [] => []
  | t :: rest =>
    (cond (!allowed.isEmpty && allowed.contains t)
      [match build t with
       | Except.ok d => TableEntry.table d
       | Except.error e =>
         TableEntry.errorEntry t ("Falha ao inspecionar a tabela: ".toList ++ e)]
      []) ++ exportCatalogTables allowed build rest

/-- The entry built for one admitted table by the export loop. -/
def entryFor (build : List Char → Except (List Char) TableDict) (t : List Char) :
    TableEntry :=
  match build t with
  | Except.ok d => TableEntry.table d
  | Except.error e =>
    TableEntry.errorEntry t ("Falha ao inspecionar a tabela: ".toList ++ e)

/-! ## Basic lemmas about the string primitives -/

theorem dropWhile_self (p : Char → Bool) (l : List Char) :
    (l.dropWhile p).dropWhile p = l.dropWhile p := by
  induction l with
  | nil => simp
  | cons c t ih =>
    by_cases h : p c
    · simpa [List.dropWhile_cons, h] using ih
    · simp [List.dropWhile_cons, h]

theorem pyLstrip_idem (s : List Char) : pyLstrip (pyLstrip s) = pyLstrip s :=
  dropWhile_self isPySpace s

theorem pyRstrip_idem (s : List Char) : pyRstrip (pyRstrip s) = pyRstrip s := by
  simp [pyRstrip, dropWhile_self]

/-- A list whose head is not dropped is left intact by `dropWhile`. -/
theorem dropWhile_eq_self_of_head (p : Char → Bool) (s : List Char)
    (h : ∀ c, s.head? = some c → p c = false) : s.dropWhile p = s := by
  cases s with
  | nil => rfl
  | cons c t => simp [List.dropWhile_cons, h c rfl]

theorem pyLstrip_eq_self_of_head (s : List Char)
    (h : ∀ c, s.head? = some c → isPySpace c = false) : pyLstrip s = s :=
  dropWhile_eq_self_of_head _ _ h

theorem pyRstrip_eq_self_of_last (s : List Char)
    (h : ∀ c, s.getLast? = some c → isPySpace c = false) : pyRstrip s = s := by
  have : s.reverse.dropWhile isPySpace = s.reverse := by
    refine dropWhile_eq_self_of_head _ _ ?_
    intro c hc
    exact h c (by simpa using hc)
  simp [pyRstrip, this]

theorem head?_dropWhile_false (p : Char → Bool) (s : List Char) (c : Char)
    (h : (s.dropWhile p).head? = some c) : p c = false := by
  induction s with
  | nil => simp at h
  | cons d t ih =>
    by_cases hd : p d
    · exact ih (by simpa [List.dropWhile_cons, hd] using h)
    · have hdc : d = c := by simpa [List.dropWhile_cons, hd] using h
      subst hdc
      simpa using hd

theorem head?_pyLstrip_false (s : List Char) (c : Char)
    (h : (pyLstrip s).head? = some c) : isPySpace c = false :=
  head?_dropWhile_false _ _ _ h

theorem getLast?_pyRstrip_false (s : List Char) (c : Char)
    (h : (pyRstrip s).getLast? = some c) : isPySpace c = false := by
  apply head?_dropWhile_false isPySpace s.reverse
  simpa [pyRstrip] using h

/-- `dropWhile` keeps the final element of a list. -/
theorem getLast?_dropWhile (p : Char → Bool) (s : List Char)
    (h : s.dropWhile p ≠ []) : (s.dropWhile p).getLast? = s.getLast? := by
  induction s with
  | nil => simp at h
  | cons d t ih =>
    by_cases hd : p d
    · rw [List.dropWhile_cons, if_pos hd] at h ⊢
      rw [ih h]
      cases t with
      | nil => simp at h
      | cons x y => simp
    · rw [List.dropWhile_cons, if_neg hd]

theorem getLast?_pyLstrip (s : List Char) (h : pyLstrip s ≠ []) :
    (pyLstrip s).getLast? = s.getLast? :=
  getLast?_dropWhile _ _ h

theorem pyStrip_head_false (s : List Char) (c : Char)
    (h : (pyStrip s).head? = some c) : isPySpace c = false :=
  head?_pyLstrip_false _ _ h

theorem pyStrip_last_false (s : List Char) (c : Char)
    (h : (pyStrip s).getLast? = some c) : isPySpace c = false := by
  have hne : pyLstrip (pyRstrip s) ≠ [] := by
    intro hnil
    rw [pyStrip, hnil] at h
    simp at h
  rw [pyStrip, getLast?_pyLstrip _ hne] at h
  exact getLast?_pyRstrip_false s c h

/-- A string with no surrounding whitespace is its own strip. -/
theorem pyStrip_eq_self (s : List Char)
    (hh : ∀ c, s.head? = some c → isPySpace c = false)
    (hl : ∀ c, s.getLast? = some c → isPySpace c = false) : pyStrip s = s := by
  rw [pyStrip, pyRstrip_eq_self_of_last s hl, pyLstrip_eq_self_of_head s hh]

theorem pyStrip_idem (s : List Char) : pyStrip (pyStrip s) = pyStrip s :=
  pyStrip_eq_self _ (pyStrip_head_false s) (pyStrip_last_false s)

theorem pyStrip_pyRstrip (s : List Char) : pyStrip (pyRstrip s) = pyStrip s := by
  simp only [pyStrip, pyRstrip_idem]

theorem pyLstrip_ne_head_space (s : List Char) (c : Char) (t : List Char)
    (hs : pyLstrip s = s) (hc : s = c :: t) : isPySpace c = false := by
  apply head?_pyLstrip_false s
  rw [hs, hc]
  rfl

/-! ## Claim C1 -/

/-- Claim C1: when the working text of the Gatekeeper (the fence-stripped,
trimmed input) does not begin with the keyword SELECT (case-insensitively,
per `^\s*select\b`), `run_query` rejects with the statement-kind
validation error and acquires no database connection. -/
theorem runQuery_rejects_non_select (sql : List Char) (exec : List Char → List Row)
    (h : matchesSelectB (pyStrip (stripFences sql)) = false) :
    runQuery exec sql = (Except.error selectOnlyErr, 0) := by
  simp [runQuery, validateSelectOnly, validateFrom, h]

/-- Witness for C1: a leading INSERT is rejected without a connection. -/
theorem runQuery_rejects_non_select_witness :
    runQuery (fun _ => []) "INSERT INTO t VALUES (1)".toList =
      (Except.error selectOnlyErr, 0) :=
  runQuery_rejects_non_select _ _ (by decide)

/-! ## Claim C7 -/

/-- Claim C7: in the foreign-key merge of `build_table_dict`, an action
field left empty by the inspector channel is filled from the
referential-rule channel entry with the same constraint name, and a
present value is never overridden. -/
theorem applyFkRules_merge (fk_rules : List (String × FkRule)) (e : FkEntry)
    (n : String) (r : FkRule) (hn : e.name = some n)
    (hr : fk_rules.lookup n = some r) :
    (isFalsyStr e.on_update = true → (applyFkRules fk_rules e).on_update = r.on_update) ∧
    (isFalsyStr e.on_update = false → (applyFkRules fk_rules e).on_update = e.on_update) ∧
    (isFalsyStr e.on_delete = true → (applyFkRules fk_rules e).on_delete = r.on_delete) ∧
    (isFalsyStr e.on_delete = false → (applyFkRules fk_rules e).on_delete = e.on_delete) := by
  have hne : fk_rules.isEmpty = false := by
    cases fk_rules with
    | nil => simp [List.lookup] at hr
    | cons a l => rfl
  refine ⟨?_, ?_, ?_, ?_⟩ <;>
    intro hf <;>
    simp [applyFkRules, hne, hn, hr, hf]

/-- Witness for C7: an empty `on_update` is filled from the rule channel
while the present `on_delete` is kept. -/
theorem applyFkRules_merge_witness :
    (applyFkRules [("fk_c", ⟨some "CASCADE", some "SET NULL"⟩)]
      ⟨some "fk_c", ["a"], none, some "b", ["id"], none, some "RESTRICT"⟩).on_update
        = some "CASCADE" ∧
    (applyFkRules [("fk_c", ⟨some "CASCADE", some "SET NULL"⟩)]
      ⟨some "fk_c", ["a"], none, some "b", ["id"], none, some "RESTRICT"⟩).on_delete
        = some "RESTRICT" := by
  have h := applyFkRules_merge [("fk_c", ⟨some "CASCADE", some "SET NULL"⟩)]
    ⟨some "fk_c", ["a"], none, some "b", ["id"], none, some "RESTRICT"⟩
    "fk_c" ⟨some "CASCADE", some "SET NULL"⟩ (by decide) (by decide)
  exact ⟨h.1 (by decide), h.2.2.2 (by decide)⟩

/-! ## Claim C3 -/

/-- Claim C3 (amended): the export loop keeps exactly the enumerated
tables that lie in a *non-empty* allow-list; with an empty allow-list the
catalog's tables sequence is empty (no table is exported), and when
`build_table_dict` names its result after its argument the exported names
are exactly the filtered enumeration. -/
theorem exportCatalogTables_spec (allowed : List (List Char))
    (build : List Char → Except (List Char) TableDict) (tables : List (List Char)) :
    exportCatalogTables allowed build tables =
      (tables.filter (fun t => !allowed.isEmpty && allowed.contains t)).map
        (entryFor build) ∧
    (allowed = [] → exportCatalogTables allowed build tables = []) ∧
    ((∀ t d, build t = Except.ok d → d.name = t) →
      (exportCatalogTables allowed build tables).map entryName =
        tables.filter (fun t => !allowed.isEmpty && allowed.contains t)) := by
  have hfilter : ∀ ts : List (List Char),
      exportCatalogTables allowed build ts =
        (ts.filter (fun t => !allowed.isEmpty && allowed.contains t)).map
          (entryFor build) := by
    intro ts
    induction ts with
    | nil => rfl
    | cons t rest ih =>
      cases h : (!allowed.isEmpty && allowed.contains t) with
      | true =>
        rw [exportCatalogTables, h, List.filter_cons, if_pos h]
        simp [ih, entryFor]
      | false =>
        rw [exportCatalogTables, h, List.filter_cons, if_neg (by simp only [h]; simp)]
        simpa using ih
  refine ⟨hfilter tables, ?_, ?_⟩
  · intro ha
    subst ha
    rw [hfilter tables]
    simp
  · intro hb
    have hid : (entryName ∘ entryFor build) = id := by
      funext t
      simp only [Function.comp, id]
      unfold entryFor
      cases hbt : build t with
      | ok d => simpa [entryName] using hb t d hbt
      | error e => simp [entryName]
    rw [hfilter tables, List.map_map, hid, List.map_id]

/-- Counterexample for C3: with an *empty* allow-list the export loop
produces an empty catalog — the enumerated table `candidates` does not
appear at all, contradicting the claim that an absent/empty allow-list
means no restriction. -/
theorem exportCatalogTables_empty_counterexample :
    exportCatalogTables [] (fun t => Except.ok ⟨t, []⟩) ["candidates".toList] = [] :=
  rfl

/-! ## Claim C8 -/

/-- Claim C8 (amended): `run_query` materialises rows exactly as the
driver delivers them — no value normalisation at all — while
`db_nl2sql_rows` applies only the isoformat conversion (dates/times to
ISO strings); a value is changed by that conversion exactly when it is a
date, datetime or time. -/
theorem executor_rows_normalisation :
    (∀ (exec : List Char → List Row) (sql safe : List Char),
      validateSelectOnly sql = Except.ok safe →
      runQuery exec sql = (Except.ok ⟨safe, exec safe, (exec safe).length⟩, 1)) ∧
    (∀ (allowed : List (List Char)) (exec : List Char → List Row) (genSql safe : List Char),
      enforceAllowedTables allowed genSql = Except.ok () →
      validateSelectOnly genSql = Except.ok safe →
      dbNl2SqlRows allowed exec genSql =
        (Except.ok ((exec safe).map
          (fun row => row.map (fun kv => (kv.1, convertIsoValue kv.2)))), 1)) ∧
    (∀ v : PyValue,
      (convertIsoValue v = v ∧
        (∀ iso, v ≠ PyValue.vDate iso ∧ v ≠ PyValue.vDatetime iso ∧ v ≠ PyValue.vTime iso)) ∨
      (∃ iso, (v = PyValue.vDate iso ∨ v = PyValue.vDatetime iso ∨ v = PyValue.vTime iso) ∧
        convertIsoValue v = PyValue.vStr iso)) := by
  refine ⟨?_, ?_, ?_⟩
  · intro exec sql safe h
    simp [runQuery, h]
  · intro allowed exec genSql safe he hv
    simp [dbNl2SqlRows, he, hv]
  · intro v
    cases v with
    | vDate iso => exact Or.inr ⟨iso, Or.inl rfl, rfl⟩
    | vDatetime iso => exact Or.inr ⟨iso, Or.inr (Or.inl rfl), rfl⟩
    | vTime iso => exact Or.inr ⟨iso, Or.inr (Or.inr rfl), rfl⟩
    | vNone => exact Or.inl ⟨rfl, fun iso => ⟨by simp, by simp, by simp⟩⟩
    | vBool b => exact Or.inl ⟨rfl, fun iso => ⟨by simp, by simp, by simp⟩⟩
    | vInt n => exact Or.inl ⟨rfl, fun iso => ⟨by simp, by simp, by simp⟩⟩
    | vFloat r => exact Or.inl ⟨rfl, fun iso => ⟨by simp, by simp, by simp⟩⟩
    | vDecimal d => exact Or.inl ⟨rfl, fun iso => ⟨by simp, by simp, by simp⟩⟩
    | vStr s => exact Or.inl ⟨rfl, fun iso => ⟨by simp, by simp, by simp⟩⟩
    | vTimedelta x => exact Or.inl ⟨rfl, fun iso => ⟨by simp, by simp, by simp⟩⟩
    | vBytes b => exact Or.inl ⟨rfl, fun iso => ⟨by simp, by simp, by simp⟩⟩
    | vUUID s => exact Or.inl ⟨rfl, fun iso => ⟨by simp, by simp, by simp⟩⟩

/-- Witness for C8: a row with a decimal value flows through `run_query`
unchanged. -/
theorem executor_rows_normalisation_witness :
    runQuery (fun _ => [[("salary", PyValue.vDecimal "1234.50")]])
      "SELECT salary FROM t".toList =
      (Except.ok ⟨"SELECT salary FROM t LIMIT 200;".toList,
        [[("salary", PyValue.vDecimal "1234.50")]], 1⟩, 1) :=
  executor_rows_normalisation.1 (fun _ => [[("salary", PyValue.vDecimal "1234.50")]])
    "SELECT salary FROM t".toList "SELECT salary FROM t LIMIT 200;".toList (by decide)

/-- Counterexample for C8: contrary to the claim, a `Decimal` value in a
row returned by `run_query` is *not* converted to a floating-point
number (nor any other normalised form) — it comes back still tagged as a
decimal. -/
theorem runQuery_decimal_not_normalised :
    (runQuery (fun _ => [[("salary", PyValue.vDecimal "1234.50")]])
        "SELECT salary FROM t".toList).1 =
      Except.ok ⟨"SELECT salary FROM t LIMIT 200;".toList,
        [[("salary", PyValue.vDecimal "1234.50")]], 1⟩ ∧
    (match [[("salary", PyValue.vDecimal "1234.50")]] with
     | [[(_, PyValue.vDecimal _)]] => true
     | _ => false) = true := by
  exact ⟨by decide, rfl⟩

/-! ## Claim C2 -/

/-- Claim C2 (amended): `db_query` and `db_nl2sql_rows` run the allow-list
check before validation and execution — an allow-list rejection produces
the validation error with no connection acquired — whereas `run_query`
never consults the allow-list: it executes (acquiring a connection) any
input that passes the SELECT-only validation. -/
theorem allowlist_gate_placement :
    (∀ (allowed : List (List Char)) (exec : List Char → List Row) (sql e : List Char),
      enforceAllowedTables allowed sql = Except.error e →
      dbQuery allowed exec sql = (Except.error e, 0) ∧
      dbNl2SqlRows allowed exec sql = (Except.error e, 0)) ∧
    (∀ (exec : List Char → List Row) (sql safe : List Char),
      validateSelectOnly sql = Except.ok safe →
      (runQuery exec sql).2 = 1) := by
  constructor
  · intro allowed exec sql e h
    constructor
    · simp [dbQuery, h]
    · simp [dbNl2SqlRows, h]
  · intro exec sql safe h
    simp [runQuery, h]

/-- Witness for C2: with allow-list `{candidates, interviews}`,
`db_query` rejects `SELECT * FROM salaries` without connecting, and
`run_query` executes a valid SELECT. -/
theorem allowlist_gate_placement_witness :
    dbQuery ["candidates".toList, "interviews".toList] (fun _ => [])
        "SELECT * FROM salaries".toList =
      (Except.error (notAllowedMsg "salaries".toList), 0) ∧
    (runQuery (fun _ => []) "SELECT 1".toList).2 = 1 :=
  ⟨(allowlist_gate_placement.1 ["candidates".toList, "interviews".toList]
      (fun _ => []) "SELECT * FROM salaries".toList
      (notAllowedMsg "salaries".toList) (by decide)).1,
   allowlist_gate_placement.2 (fun _ => []) "SELECT 1".toList
     "SELECT 1 LIMIT 200;".toList (by decide)⟩

/-- Counterexample for C2: `run_query` applies no allow-list stage at all.
The very input that `_enforce_allowed_tables` rejects under the allow-list
`{candidates, interviews}` is executed by `run_query` (a connection is
acquired and rows are returned). -/
theorem runQuery_skips_allowlist :
    enforceAllowedTables ["candidates".toList, "interviews".toList]
        "SELECT * FROM salaries".toList =
      Except.error (notAllowedMsg "salaries".toList) ∧
    runQuery (fun _ => [[("id", PyValue.vInt 1)]]) "SELECT * FROM salaries".toList =
      (Except.ok ⟨"SELECT * FROM salaries LIMIT 200;".toList,
        [[("id", PyValue.vInt 1)]], 1⟩, 1) := by
  exact ⟨by decide, by decide⟩

/-! ## Character-level lemmas for the Gatekeeper proofs -/

theorem asciiLower_char_cases (c d : Char) (h : asciiLower c = d) :
    c = d ∨ (c, d) ∈ lowerPairs := by
  unfold asciiLower at h
  cases hf : lowerPairs.find? (fun p => p.1 = c) with
  | none =>
    rw [hf] at h
    exact Or.inl (by simpa using h)
  | some p =>
    cases p with
    | mk p1 p2 =>
      have hmem := List.mem_of_find?_eq_some hf
      have hpc : p1 = c := by simpa using List.find?_some hf
      rw [hf] at h
      simp only [Option.map_some', Option.getD_some] at h
      right
      rw [← hpc, ← h]
      exact hmem

theorem eq_s_or_S (a : Char) (h : asciiLower a = 's') : a = 's' ∨ a = 'S' := by
  rcases asciiLower_char_cases a 's' h with h1 | h2
  · exact Or.inl h1
  · have hq : ∀ q ∈ lowerPairs, q.2 = 's' → q.1 = 'S' := by decide
    exact Or.inr (hq (a, 's') h2 rfl)

theorem eq_t_or_T (a : Char) (h : asciiLower a = 't') : a = 't' ∨ a = 'T' := by
  rcases asciiLower_char_cases a 't' h with h1 | h2
  · exact Or.inl h1
  · have hq : ∀ q ∈ lowerPairs, q.2 = 't' → q.1 = 'T' := by decide
    exact Or.inr (hq (a, 't') h2 rfl)

theorem bt3_false_of_head (s : List Char) (a : Char) (t : List Char)
    (hs : s = a :: t) (ha : asciiLower a = 's') : startsWithBt3 s = false := by
  subst hs
  cases hb : startsWithBt3 (a :: t) with
  | false => rfl
  | true =>
    exfalso
    have htake : (a :: t).take 3 = "```".toList := by
      simpa [startsWithBt3] using hb
    have hh : ("```".toList).head? = some a := by
      rw [← htake]
      rfl
    have hno : ∀ x, ("```".toList).head? = some x → asciiLower x ≠ 's' := by decide
    exact hno a hh ha

theorem pyLstrip_of_pyStrip (x : List Char) (h : pyStrip x = x) : pyLstrip x = x := by
  conv_lhs => rw [← h]
  rw [pyStrip, pyLstrip_idem]
  exact h

/-- The decomposition furnished by `re.match(r"(?i)^\s*select\b", n)` on a
left-stripped text. -/
theorem matchesSelect_decomp (n : List Char) (hl : pyLstrip n = n)
    (hm : matchesSelectB n = true) :
    ∃ a b c d e f t, n = a :: b :: c :: d :: e :: f :: t ∧
      asciiLower a = 's' ∧ asciiLower b = 'e' ∧ asciiLower c = 'l' ∧
      asciiLower d = 'e' ∧ asciiLower e = 'c' ∧ asciiLower f = 't' ∧
      (∀ c0, t.head? = some c0 → isWordChar c0 = false) := by
  unfold matchesSelectB at hm
  rw [show n.dropWhile isPySpace = n from hl] at hm
  rcases n with _ | ⟨a, _ | ⟨b, _ | ⟨c, _ | ⟨d, _ | ⟨e, _ | ⟨f, t⟩⟩⟩⟩⟩⟩ <;>
    simp [startsWithCI, show "select".toList =
      's' :: 'e' :: 'l' :: 'e' :: 'c' :: 't' :: [] from rfl] at hm
  refine ⟨a, b, c, d, e, f, t, rfl, hm.1.1, hm.1.2.1, hm.1.2.2.1,
    hm.1.2.2.2.1, hm.1.2.2.2.2.1, hm.1.2.2.2.2.2, ?_⟩
  intro c0 hc0
  cases t with
  | nil => simp at hc0
  | cons x y =>
    have : x = c0 := by simpa using hc0
    subst this
    simpa using hm.2

theorem dropWhile_append_keep (p : Char → Bool) (xs ys : List Char)
    (h : ∀ c, ys.head? = some c → p c = false) :
    (xs ++ ys).dropWhile p = xs.dropWhile p ++ ys := by
  rw [List.dropWhile_append]
  cases he : (xs.dropWhile p).isEmpty with
  | true =>
    simp only [if_pos rfl]
    rw [dropWhile_eq_self_of_head p ys h]
    simp [List.isEmpty_iff.mp he]
  | false => simp

theorem exists_append_revDrop (p : Char → Bool) (x : List Char) :
    ∃ w, x = (x.reverse.dropWhile p).reverse ++ w := by
  have hsfx : x.reverse.dropWhile p <:+ x.reverse := List.dropWhile_suffix p
  obtain ⟨u, hu⟩ := hsfx
  refine ⟨u.reverse, ?_⟩
  conv_lhs => rw [← List.reverse_reverse x, ← hu]
  rw [List.reverse_append]

theorem exists_append_pyRstrip (x : List Char) : ∃ w, x = pyRstrip x ++ w :=
  exists_append_revDrop isPySpace x

theorem exists_append_rstripSemis (x : List Char) : ∃ w, x = rstripSemis x ++ w :=
  exists_append_revDrop (fun c => c = ';') x

theorem pyRstrip_append_keep (f t : List Char)
    (h : ∀ c, f.reverse.head? = some c → isPySpace c = false) :
    pyRstrip (f ++ t) = f ++ pyRstrip t := by
  unfold pyRstrip
  rw [List.reverse_append, dropWhile_append_keep _ _ _ h, List.reverse_append,
    List.reverse_reverse]

theorem rstripSemis_append_keep (f t : List Char)
    (h : ∀ c, f.reverse.head? = some c → (c = ';' : Bool) = false) :
    rstripSemis (f ++ t) = f ++ rstripSemis t := by
  unfold rstripSemis
  rw [List.reverse_append, dropWhile_append_keep _ _ _ h, List.reverse_append,
    List.reverse_reverse]

/-- The output always ends in the appended LIMIT clause, so the
limit-at-end search succeeds. -/
theorem limitEnd_of_suffix : ∀ (xs : List Char) (prev : Option Char),
    limitEndAux prev (xs ++ " LIMIT 200;".toList) = true := by
  intro xs
  induction xs with
  | nil =>
    intro prev
    have hrw : " LIMIT 200;".toList = ' ' :: "LIMIT 200;".toList := rfl
    rw [List.nil_append, hrw, limitEndAux]
    have htail : limitEndAux (some ' ') "LIMIT 200;".toList = true := by decide
    rw [htail]
    simp
  | cons c t ih =>
    intro prev
    rw [List.cons_append, limitEndAux, ih (some c)]
    simp

/-- Any successful Gatekeeper output is stable: trimmed, fence-free,
SELECT-leading and LIMIT-terminated. -/
theorem validateFrom_output_stable (n out : List Char) (hn : pyStrip n = n)
    (h : validateFrom n = Except.ok out) :
    pyStrip out = out ∧ matchesSelectB out = true ∧ limitEndB out = true ∧
      startsWithBt3 out = false := by
  have hl : pyLstrip n = n := pyLstrip_of_pyStrip n hn
  cases hm : matchesSelectB n with
  | false => simp [validateFrom, hm] at h
  | true =>
    obtain ⟨a, b, c, d, e, f, t, hnd, ha, hb, hc, hd, he, hf, hbnd⟩ :=
      matchesSelect_decomp n hl hm
    cases hle : limitEndB n with
    | true =>
      have hout : n = out := by simpa [validateFrom, hm, hle] using h
      subst hout
      exact ⟨hn, hm, hle, bt3_false_of_head n a _ hnd ha⟩
    | false =>
      have hout : out = rstripSemis (pyRstrip n) ++ " LIMIT 200;".toList := by
        have h' := h
        simp only [validateFrom, hm, hle, if_true, if_false, Bool.false_eq_true,
          if_neg, Except.ok.injEq] at h'
        exact h'.symm
      have hfws : isPySpace f = false := by
        rcases eq_t_or_T f hf with rfl | rfl <;> decide
      have hfsemi : ((f = ';' : Bool)) = false := by
        rcases eq_t_or_T f hf with rfl | rfl <;> decide
      have haws : isPySpace a = false := by
        rcases eq_s_or_S a ha with rfl | rfl <;> decide
      have hsplit : n = [a, b, c, d, e, f] ++ t := by simpa using hnd
      have hrev : ([a, b, c, d, e, f] : List Char).reverse.head? = some f := rfl
      have h1 : pyRstrip n = [a, b, c, d, e, f] ++ pyRstrip t := by
        rw [hsplit]
        exact pyRstrip_append_keep _ _ (fun c0 hc0 => by
          rw [hrev] at hc0
          exact (Option.some.inj hc0) ▸ hfws)
      have h2 : rstripSemis (pyRstrip n) =
          [a, b, c, d, e, f] ++ rstripSemis (pyRstrip t) := by
        rw [h1]
        exact rstripSemis_append_keep _ _ (fun c0 hc0 => by
          rw [hrev] at hc0
          exact (Option.some.inj hc0) ▸ hfsemi)
      have houtform : out =
          a :: b :: c :: d :: e :: f ::
            (rstripSemis (pyRstrip t) ++ " LIMIT 200;".toList) := by
        rw [hout, h2]
        simp
      have hvhead : ∀ c0, (rstripSemis (pyRstrip t)).head? = some c0 →
          isWordChar c0 = false := by
        intro c0 hc0
        obtain ⟨w1, hw1⟩ := exists_append_rstripSemis (pyRstrip t)
        obtain ⟨w2, hw2⟩ := exists_append_pyRstrip t
        apply hbnd c0
        cases hvv : rstripSemis (pyRstrip t) with
        | nil => rw [hvv] at hc0; simp at hc0
        | cons x y =>
          have hx : x = c0 := by rw [hvv] at hc0; simpa using hc0
          rw [hw2, hw1, hvv, hx]
          rfl
      have hlstripout : out.dropWhile isPySpace = out := by
        apply dropWhile_eq_self_of_head
        intro c0 hc0
        rw [houtform] at hc0
        exact (Option.some.inj hc0) ▸ haws
      refine ⟨?_, ?_, ?_, ?_⟩
      · apply pyStrip_eq_self
        · intro c0 hc0
          rw [houtform] at hc0
          exact (Option.some.inj hc0) ▸ haws
        · intro c0 hc0
          rw [hout, List.getLast?_append] at hc0
          have hlim : (" LIMIT 200;".toList).getLast? = some ';' := by decide
          rw [hlim] at hc0
          have : c0 = ';' := by simpa [Option.or] using hc0.symm
          subst this
          decide
      · unfold matchesSelectB
        rw [hlstripout, houtform]
        cases hvv : rstripSemis (pyRstrip t) with
        | nil =>
          simp [startsWithCI, ha, hb, hc, hd, he, hf,
            show "select".toList = 's' :: 'e' :: 'l' :: 'e' :: 'c' :: 't' :: [] from rfl]
          decide
        | cons x y =>
          have hxw := hvhead x (by rw [hvv]; rfl)
          simp [startsWithCI, ha, hb, hc, hd, he, hf, hxw,
            show "select".toList = 's' :: 'e' :: 'l' :: 'e' :: 'c' :: 't' :: [] from rfl]
      · show limitEndAux none out = true
        have : out = ([a, b, c, d, e, f] ++ rstripSemis (pyRstrip t)) ++
            " LIMIT 200;".toList := by
          rw [houtform]
          simp
        rw [this]
        exact limitEnd_of_suffix _ none
      · exact bt3_false_of_head out a _ houtform ha

/-- Claim C4 (amended): a SELECT without a trailing LIMIT clause is
rewritten to end in `LIMIT 200;` (the code appends a semicolon after the
cap, so the claimed suffix `LIMIT 200` gains a final `;`); a SELECT that
already ends in `LIMIT n` is returned unchanged apart from
fence/whitespace trimming; and the sanitiser is idempotent on its own
output. -/
theorem validate_limit_idempotent :
    (∀ sql : List Char,
      matchesSelectB (pyStrip (stripFences sql)) = true →
      limitEndB (pyStrip (stripFences sql)) = false →
      validateSelectOnly sql =
        Except.ok (rstripSemis (pyRstrip (pyStrip (stripFences sql))) ++
          " LIMIT 200;".toList) ∧
      (∃ w, rstripSemis (pyRstrip (pyStrip (stripFences sql))) ++
          " LIMIT 200;".toList = w ++ "LIMIT 200;".toList)) ∧
    (∀ sql : List Char,
      matchesSelectB (pyStrip (stripFences sql)) = true →
      limitEndB (pyStrip (stripFences sql)) = true →
      validateSelectOnly sql = Except.ok (pyStrip (stripFences sql))) ∧
    (∀ sql out : List Char, validateSelectOnly sql = Except.ok out →
      validateSelectOnly out = Except.ok out) := by
  refine ⟨?_, ?_, ?_⟩
  · intro sql hm hle
    constructor
    · simp [validateSelectOnly, validateFrom, hm, hle]
    · refine ⟨rstripSemis (pyRstrip (pyStrip (stripFences sql))) ++ [' '], ?_⟩
      rw [List.append_assoc]
      rfl
  · intro sql hm hle
    simp [validateSelectOnly, validateFrom, hm, hle]
  · intro sql out h
    have hn := pyStrip_idem (stripFences sql)
    obtain ⟨h1, h2, h3, h4⟩ := validateFrom_output_stable _ out hn h
    unfold validateSelectOnly
    rw [show stripFences out = out from by simp [stripFences, h4], h1]
    simp [validateFrom, h2, h3]

/-- Witness for C4: the three branches at concrete inputs. -/
theorem validate_limit_idempotent_witness :
    validateSelectOnly "SELECT 1".toList = Except.ok "SELECT 1 LIMIT 200;".toList ∧
    validateSelectOnly "select 2 limit 5".toList = Except.ok "select 2 limit 5".toList ∧
    validateSelectOnly "SELECT 1 LIMIT 200;".toList =
      Except.ok "SELECT 1 LIMIT 200;".toList := by
  refine ⟨?_, ?_, ?_⟩
  · have h := (validate_limit_idempotent.1 "SELECT 1".toList (by decide) (by decide)).1
    rw [h]
    decide
  · have h := validate_limit_idempotent.2.1 "select 2 limit 5".toList (by decide) (by decide)
    rw [h]
    decide
  · exact validate_limit_idempotent.2.2 "SELECT 1".toList "SELECT 1 LIMIT 200;".toList
      (by decide)

/-- Counterexample for C4: the sanitised output of a LIMIT-less SELECT is
`SELECT 1 LIMIT 200;` — it ends with `LIMIT 200;`, not with the claimed
bare `LIMIT 200`. -/
theorem validate_limit_suffix_counterexample :
    validateSelectOnly "SELECT 1".toList = Except.ok "SELECT 1 LIMIT 200;".toList ∧
    ("LIMIT 200".toList).isSuffixOf "SELECT 1 LIMIT 200;".toList = false := by
  exact ⟨by decide, by decide⟩

/-! ## Split/join and rstrip lemmas for the fence round-trip -/

theorem pySplit_ne_nil (sep : Char) (s : List Char) : pySplit sep s ≠ [] := by
  cases s with
  | nil => simp [pySplit]
  | cons c r =>
    unfold pySplit
    by_cases h : c = sep
    · simp [h]
    · cases hr : pySplit sep r <;> simp [h, hr]

theorem pySplit_no_sep (sep : Char) (s : List Char) (h : sep ∉ s) :
    pySplit sep s = [s] := by
  induction s with
  | nil => rfl
  | cons c r ih =>
    have hc : ¬(c = sep) := fun hcc => h (hcc ▸ List.mem_cons_self c r)
    have hr : sep ∉ r := fun hrr => h (List.mem_cons_of_mem c hrr)
    unfold pySplit
    rw [if_neg hc, ih hr]

theorem pySplit_append_sep (sep : Char) (seg rest : List Char) (h : sep ∉ seg) :
    pySplit sep (seg ++ sep :: rest) = seg :: pySplit sep rest := by
  induction seg with
  | nil => simp [pySplit]
  | cons c sg ih =>
    have hc : ¬(c = sep) := fun hcc => h (hcc ▸ List.mem_cons_self c sg)
    have hsg : sep ∉ sg := fun hrr => h (List.mem_cons_of_mem c hrr)
    rw [List.cons_append]
    conv_lhs => rw [pySplit]
    rw [if_neg hc, ih hsg]

theorem joinSep_pySplit (sep : Char) (s : List Char) :
    joinSep sep (pySplit sep s) = s := by
  induction s with
  | nil => rfl
  | cons c r ih =>
    unfold pySplit
    by_cases h : c = sep
    · subst h
      rw [if_pos rfl]
      cases hr : pySplit c r with
      | nil => exact absurd hr (pySplit_ne_nil c r)
      | cons l ls =>
        show joinSep c ([] :: l :: ls) = c :: r
        unfold joinSep
        rw [← hr, ih]
        rfl
    · rw [if_neg h]
      cases hr : pySplit sep r with
      | nil => exact absurd hr (pySplit_ne_nil sep r)
      | cons l ls =>
        cases ls with
        | nil =>
          show joinSep sep [c :: l] = c :: r
          unfold joinSep
          have : joinSep sep [l] = r := by rw [← hr, ih]
          simpa [joinSep] using congrArg (c :: ·) this
        | cons l2 ls2 =>
          show joinSep sep ((c :: l) :: l2 :: ls2) = c :: r
          unfold joinSep
          have : joinSep sep (l :: l2 :: ls2) = r := by rw [← hr, ih]
          unfold joinSep at this
          rw [List.cons_append, this]

theorem rfindBt3_of_end (s : List Char) (h3 : 3 ≤ s.length)
    (hend : btAt s (s.length - 3) = true) : rfindBt3 s = some (s.length - 3) := by
  unfold rfindBt3
  have hr : s.length - 2 = (s.length - 3) + 1 := by omega
  rw [hr, List.range_succ, List.filter_append]
  have : List.filter (fun i => btAt s i) [s.length - 3] = [s.length - 3] := by
    simp [hend]
  rw [this, List.getLast?_concat]

theorem pyRstrip_append_of_ne (x y : List Char) (h : pyRstrip y ≠ []) :
    pyRstrip (x ++ y) = x ++ pyRstrip y := by
  have hne : (y.reverse.dropWhile isPySpace).isEmpty = false := by
    cases hy : y.reverse.dropWhile isPySpace with
    | nil => exact absurd (by simp [pyRstrip, hy]) h
    | cons a b => rfl
  unfold pyRstrip
  rw [List.reverse_append, List.dropWhile_append, if_neg (by simp [hne]),
    List.reverse_append, List.reverse_reverse]

theorem pyRstrip_append_allws (x y : List Char)
    (h : ∀ c ∈ y, isPySpace c = true) : pyRstrip (x ++ y) = pyRstrip x := by
  have hnil : y.reverse.dropWhile isPySpace = [] := by
    rw [List.dropWhile_eq_nil_iff]
    intro c hc
    exact h c (List.mem_reverse.mp hc)
  unfold pyRstrip
  rw [List.reverse_append, List.dropWhile_append, if_pos (by simp [hnil])]

theorem pyRstrip_eq_nil_allws (y : List Char) (h : ∀ c ∈ y, isPySpace c = true) :
    pyRstrip y = [] := by
  have := pyRstrip_append_allws [] y h
  simpa [pyRstrip] using this

theorem allws_of_pyRstrip_nil (t : List Char) (h : pyRstrip t = []) :
    ∀ c ∈ t, isPySpace c = true := by
  intro c hc
  have hrev : t.reverse.dropWhile isPySpace = [] := by
    have := congrArg List.reverse h
    simpa [pyRstrip] using this
  exact List.dropWhile_eq_nil_iff.mp hrev c (List.mem_reverse.mpr hc)

theorem head?_append_left (x z : List Char) (hx : x ≠ []) :
    (x ++ z).head? = x.head? := by
  cases x with
  | nil => exact absurd rfl hx
  | cons a b => rfl

theorem opt_char_prop (o : Option Char) (x : Char) (hx : o = some x)
    (hxp : isPySpace x = false) : ∀ c, o = some c → isPySpace c = false := by
  intro c hc
  rw [hx] at hc
  exact (Option.some.inj hc) ▸ hxp

/-- Fence stripping of a well-formed wrapped block recovers the trimmed
body of the block. -/
theorem stripFences_wrapped (t tag : List Char)
    (htag1 : tag ≠ [])
    (hnl : '\n' ∉ tag)
    (hhead : ∀ c, tag.head? = some c → isPySpace c = false)
    (hlast : ∀ c, tag.getLast? = some c → isPySpace c = false)
    (htag : fenceTags.contains (pyLower tag) = true) :
    pyStrip (stripFences ("```".toList ++ tag ++ '\n' :: (t ++ '\n' :: "```".toList)))
      = pyStrip t := by
  have hstag : pyStrip tag = tag := pyStrip_eq_self tag hhead hlast
  set I : List Char := tag ++ ('\n' :: (t ++ ['\n'])) with hI
  set P : List Char := "```".toList ++ I with hP
  set W : List Char := "```".toList ++ tag ++ '\n' :: (t ++ '\n' :: "```".toList) with hW0
  have hW : W = P ++ "```".toList := by
    rw [hW0, hP, hI]
    simp [List.append_assoc]
  have hlenW : W.length = P.length + 3 := by
    rw [hW]
    simp
  have hlenI : I.length = tag.length + t.length + 2 := by
    rw [hI]
    simp
    try omega
  have hlenP : P.length = I.length + 3 := by
    rw [hP]
    simp
    try omega
  have htaglen : 1 ≤ tag.length := by
    cases tag with
    | nil => exact absurd rfl htag1
    | cons a b => simp
  have htake : W.take 3 = "```".toList := by
    rw [hW0]
    exact List.take_left' (show ("```".toList).length = 3 from rfl)
  have hsw : startsWithBt3 W = true := by
    simp [startsWithBt3, htake]
  have hbt : btAt W (W.length - 3) = true := by
    have hd : W.drop P.length = "```".toList := by
      rw [hW]
      exact List.drop_left P _
    have hidx : W.length - 3 = P.length := by omega
    simp [btAt, hidx, hd]
  have hem : rfindBt3 W = some (W.length - 3) := rfindBt3_of_end W (by omega) hbt
  have h3em : 3 < W.length - 3 := by omega
  have hslice : pySlice 3 (W.length - 3) W = I := by
    unfold pySlice
    have hd3 : W.drop 3 = I ++ "```".toList := by
      rw [hW, hP, List.append_assoc]
      exact List.drop_left' (show ("```".toList).length = 3 from rfl)
    have hIl : W.length - 3 - 3 = I.length := by omega
    rw [hd3, hIl]
    exact List.take_left I _
  cases hr : pyRstrip t with
  | cons rc rrest =>
    have hrne : pyRstrip t ≠ [] := by rw [hr]; simp
    have ht1 : pyRstrip (t ++ ['\n']) = pyRstrip t :=
      pyRstrip_append_allws t ['\n'] (by intro c hc; simp at hc; subst hc; decide)
    have ht2 : pyRstrip (('\n' : Char) :: (t ++ ['\n'])) = '\n' :: pyRstrip t := by
      have := pyRstrip_append_of_ne ['\n'] (t ++ ['\n']) (by rw [ht1]; exact hrne)
      rw [ht1] at this
      simpa using this
    have ht3 : pyRstrip I = tag ++ ('\n' :: pyRstrip t) := by
      rw [hI, pyRstrip_append_of_ne tag _ (by rw [ht2]; simp), ht2]
    have hIstrip : pyStrip I = tag ++ ('\n' :: pyRstrip t) := by
      rw [pyStrip, ht3]
      apply dropWhile_eq_self_of_head
      intro c hc
      rw [head?_append_left tag _ htag1] at hc
      exact hhead c hc
    have hlines : pySplit '\n' (pyStrip I) = tag :: pySplit '\n' (pyRstrip t) := by
      rw [hIstrip]
      exact pySplit_append_sep '\n' tag (pyRstrip t) hnl
    have heval : stripFences W = pyStrip (joinSep '\n' (pySplit '\n' (pyRstrip t))) := by
      unfold stripFences
      rw [hsw, hem]
      simp only [if_pos rfl, if_pos h3em, hslice, hlines]
      rw [hstag, htag]
      simp
    rw [heval, joinSep_pySplit, pyStrip_idem, pyStrip_pyRstrip]
  | nil =>
    have hallws : ∀ c ∈ t, isPySpace c = true := allws_of_pyRstrip_nil t hr
    have hyws : ∀ c ∈ ('\n' : Char) :: (t ++ ['\n']), isPySpace c = true := by
      intro c hc
      simp at hc
      rcases hc with rfl | hc | rfl
      · decide
      · exact hallws c hc
      · decide
    have ht3 : pyRstrip I = tag := by
      rw [hI, pyRstrip_append_allws tag _ hyws]
      exact pyRstrip_eq_self_of_last tag hlast
    have hIstrip : pyStrip I = tag := by
      rw [pyStrip, ht3]
      exact pyLstrip_eq_self_of_head tag hhead
    have hlines : pySplit '\n' (pyStrip I) = [tag] := by
      rw [hIstrip]
      exact pySplit_no_sep '\n' tag hnl
    have heval : stripFences W = [] := by
      unfold stripFences
      rw [hsw, hem]
      simp only [if_pos rfl, if_pos h3em, hslice, hlines]
      rw [hstag, htag]
      simp [joinSep, pyStrip, pyRstrip, pyLstrip]
    have hts : pyStrip t = [] := by
      rw [pyStrip, hr]
      rfl
    rw [heval, hts]
    rfl

/-- Claim C9: validating a SQL text wrapped in a language-tagged code
fence gives the same result as validating the bare text, and when no
closing fence marker is found past the opening one the text is left
untouched by fence stripping. -/
theorem fence_roundtrip :
    (∀ t tag : List Char, tag ∈ fenceTags → startsWithBt3 t = false →
      validateSelectOnly ("```".toList ++ tag ++ '\n' :: (t ++ '\n' :: "```".toList)) =
        validateSelectOnly t) ∧
    (∀ (s : List Char) (em : Nat), startsWithBt3 s = true → rfindBt3 s = some em →
      em ≤ 3 → stripFences s = s) := by
  constructor
  · intro t tag htag hnb
    have h3 : tag = "sql".toList ∨ tag = "mysql".toList ∨ tag = "mariadb".toList := by
      simpa [fenceTags] using htag
    have key : pyStrip (stripFences
        ("```".toList ++ tag ++ '\n' :: (t ++ '\n' :: "```".toList))) = pyStrip t := by
      rcases h3 with rfl | rfl | rfl
      · exact stripFences_wrapped t _ (by decide) (by decide)
          (opt_char_prop _ 's' (by decide) (by decide))
          (opt_char_prop _ 'l' (by decide) (by decide)) (by decide)
      · exact stripFences_wrapped t _ (by decide) (by decide)
          (opt_char_prop _ 'm' (by decide) (by decide))
          (opt_char_prop _ 'l' (by decide) (by decide)) (by decide)
      · exact stripFences_wrapped t _ (by decide) (by decide)
          (opt_char_prop _ 'm' (by decide) (by decide))
          (opt_char_prop _ 'b' (by decide) (by decide)) (by decide)
    unfold validateSelectOnly
    rw [key, show stripFences t = t from by simp [stripFences, hnb]]
  · intro s em hsw hem hle
    unfold stripFences
    rw [hsw, hem]
    simp [show ¬(3 < em) from by omega]

/-- Witness for C9: a concrete fenced SELECT validates exactly like its
unwrapped body, and an unterminated fence is left as-is. -/
theorem fence_roundtrip_witness :
    validateSelectOnly "```sql\nSELECT * FROM t\n```".toList =
      validateSelectOnly "SELECT * FROM t".toList ∧
    stripFences "```SELECT 1".toList = "```SELECT 1".toList := by
  constructor
  · have h := fence_roundtrip.1 "SELECT * FROM t".toList "sql".toList
      (by decide) (by decide)
    have hshape : "```sql\nSELECT * FROM t\n```".toList =
        "```".toList ++ "sql".toList ++ '\n' ::
          ("SELECT * FROM t".toList ++ '\n' :: "```".toList) := by decide
    rw [hshape]
    exact h
  · exact fence_roundtrip.2 "```SELECT 1".toList 0 (by decide) (by decide) (by decide)

/-! ## Token-extraction lemmas for the allow-list claims -/

theorem matchKw_drop (cs r : List Char) (h : matchKw cs = some r) : r = cs.drop 4 := by
  unfold matchKw at h
  by_cases h1 : cs.take 4 = "from".toList
  · rw [if_pos h1] at h
    exact (Option.some.inj h).symm
  · rw [if_neg h1] at h
    by_cases h2 : cs.take 4 = "join".toList
    · rw [if_pos h2] at h
      exact (Option.some.inj h).symm
    · rw [if_neg h2] at h
      cases h

theorem mem_of_drop (cs : List Char) (k : Nat) (c : Char) (h : c ∈ cs.drop k) :
    c ∈ cs :=
  List.drop_subset k cs h

theorem head_of_drop_mem (cs rest : List Char) (k : Nat) (b : Char)
    (h : cs.drop k = b :: rest) : b ∈ cs := by
  apply List.drop_subset k cs
  rw [h]
  exact List.mem_cons_self b rest

theorem mem_takeWhile (p : Char → Bool) (l : List Char) (c : Char)
    (h : c ∈ l.takeWhile p) : c ∈ l :=
  (List.takeWhile_sublist p).subset h

/-- Every character of a captured identifier occurs in the scanned text. -/
theorem tokenAt_chars (cs : List Char) (n : Nat) (g : List Char)
    (h : tokenAt cs = some (n, g)) : ∀ c ∈ g, c ∈ cs := by
  intro c hc
  unfold tokenAt at h
  cases hkw : matchKw cs with
  | none => rw [hkw] at h; cases h
  | some r1 =>
    rw [hkw] at h
    dsimp only at h
    have hr1 : r1 = cs.drop 4 := matchKw_drop cs r1 hkw
    have hr1sub : ∀ x, x ∈ r1 → x ∈ cs := by
      intro x hx
      exact mem_of_drop cs 4 x (hr1 ▸ hx)
    by_cases hws : (r1.takeWhile isPySpace).isEmpty
    · rw [if_pos hws] at h; cases h
    · rw [if_neg hws] at h
      set r2 := r1.drop (r1.takeWhile isPySpace).length with hr2
      have hr2sub : ∀ x, x ∈ r2 → x ∈ cs := by
        intro x hx
        exact hr1sub x (mem_of_drop r1 _ x hx)
      cases hr2c : r2 with
      | nil => rw [hr2c] at h; cases h
      | cons b r3 =>
        rw [hr2c] at h
        dsimp only at h
        have hbmem : b ∈ cs := hr2sub b (by rw [hr2c]; exact List.mem_cons_self b r3)
        have hr3sub : ∀ x, x ∈ r3 → x ∈ cs := by
          intro x hx
          exact hr2sub x (by rw [hr2c]; exact List.mem_cons_of_mem b hx)
        by_cases hb : isBracketQ b = true
        · rw [if_pos hb] at h
          by_cases hrun : (r3.takeWhile isWordDot).isEmpty
          · rw [if_pos hrun] at h; cases h
          · rw [if_neg hrun] at h
            have hrunsub : ∀ x, x ∈ r3.takeWhile isWordDot → x ∈ cs := by
              intro x hx
              exact hr3sub x (mem_takeWhile _ _ x hx)
            cases hr4 : r3.drop (r3.takeWhile isWordDot).length with
            | nil =>
              rw [hr4] at h
              dsimp only at h
              have hg : b :: r3.takeWhile isWordDot = g := by
                simpa using congrArg Prod.snd (Option.some.inj h)
              rw [← hg] at hc
              rcases List.mem_cons.mp hc with rfl | hcx
              · exact hbmem
              · exact hrunsub c hcx
            | cons b2 r5 =>
              rw [hr4] at h
              dsimp only at h
              have hb2mem : b2 ∈ cs :=
                hr3sub b2 (head_of_drop_mem r3 r5 _ b2 hr4)
              by_cases hb2 : isBracketQ b2 = true
              · rw [if_pos hb2] at h
                have hg : b :: (r3.takeWhile isWordDot ++ [b2]) = g := by
                  simpa using congrArg Prod.snd (Option.some.inj h)
                rw [← hg] at hc
                rcases List.mem_cons.mp hc with rfl | hcx
                · exact hbmem
                · rcases List.mem_append.mp hcx with hcy | hcy
                  · exact hrunsub c hcy
                  · simp at hcy
                    subst hcy
                    exact hb2mem
              · rw [if_neg hb2] at h
                have hg : b :: r3.takeWhile isWordDot = g := by
                  simpa using congrArg Prod.snd (Option.some.inj h)
                rw [← hg] at hc
                rcases List.mem_cons.mp hc with rfl | hcx
                · exact hbmem
                · exact hrunsub c hcx
        · rw [if_neg hb] at h
          by_cases hrun : ((b :: r3).takeWhile isWordDot).isEmpty
          · rw [if_pos hrun] at h
            cases h
          · rw [if_neg hrun] at h
            have hrunsub : ∀ x, x ∈ (b :: r3).takeWhile isWordDot → x ∈ cs := by
              intro x hx
              have := mem_takeWhile _ _ x hx
              rcases List.mem_cons.mp this with rfl | hcx
              · exact hbmem
              · exact hr3sub x hcx
            cases hr4 : (b :: r3).drop ((b :: r3).takeWhile isWordDot).length with
            | nil =>
              rw [hr4] at h
              dsimp only at h
              have hg : (b :: r3).takeWhile isWordDot = g := by
                simpa using congrArg Prod.snd (Option.some.inj h)
              rw [← hg] at hc
              exact hrunsub c hc
            | cons b2 r5 =>
              rw [hr4] at h
              dsimp only at h
              have hb2mem : b2 ∈ cs := by
                apply hr2sub b2
                rw [hr2c]
                exact head_of_drop_mem (b :: r3) r5 _ b2 hr4
              by_cases hb2 : isBracketQ b2 = true
              · rw [if_pos hb2] at h
                have hg : (b :: r3).takeWhile isWordDot ++ [b2] = g := by
                  simpa using congrArg Prod.snd (Option.some.inj h)
                rw [← hg] at hc
                rcases List.mem_append.mp hc with hcy | hcy
                · exact hrunsub c hcy
                · simp at hcy
                  subst hcy
                  exact hb2mem
              · rw [if_neg hb2] at h
                have hg : (b :: r3).takeWhile isWordDot = g := by
                  simpa using congrArg Prod.snd (Option.some.inj h)
                rw [← hg] at hc
                exact hrunsub c hc

/-- Every captured identifier's characters occur in the scanned text. -/
theorem findTokensAux_chars : ∀ (fuel : Nat) (cs : List Char) (g : List Char),
    g ∈ findTokensAux fuel cs → ∀ c ∈ g, c ∈ cs := by
  intro fuel
  induction fuel with
  | zero => intro cs g hg; simp [findTokensAux] at hg
  | succ f ih =>
    intro cs g hg c hc
    cases cs with
    | nil => simp [findTokensAux] at hg
    | cons x rest =>
      unfold findTokensAux at hg
      cases htk : tokenAt (x :: rest) with
      | some p =>
        cases p with
        | mk n g0 =>
          cases n with
          | zero =>
            rw [htk] at hg
            dsimp only at hg
            exact List.mem_cons_of_mem x (ih rest g hg c hc)
          | succ m =>
            rw [htk] at hg
            dsimp only at hg
            rcases List.mem_cons.mp hg with rfl | hgr
            · exact tokenAt_chars _ _ _ htk c hc
            · exact mem_of_drop _ _ _ (ih _ g hgr c hc)
      | none =>
        rw [htk] at hg
        dsimp only at hg
        exact List.mem_cons_of_mem x (ih rest g hg c hc)

theorem findTokens_chars (cs g : List Char) (hg : g ∈ findTokens cs) :
    ∀ c ∈ g, c ∈ cs :=
  findTokensAux_chars cs.length cs g hg

theorem mem_stripBrackets (g : List Char) (c : Char) (h : c ∈ stripBrackets g) :
    c ∈ g := by
  unfold stripBrackets at h
  have h1 := List.mem_reverse.mp h
  have h2 := (List.dropWhile_sublist isBracketQ).subset h1
  have h3 := List.mem_reverse.mp h2
  exact (List.dropWhile_sublist isBracketQ).subset h3

theorem pySplit_seg_chars (sep : Char) : ∀ (x seg : List Char),
    seg ∈ pySplit sep x → ∀ c ∈ seg, c ∈ x := by
  intro x
  induction x with
  | nil =>
    intro seg hseg c hc
    simp [pySplit] at hseg
    subst hseg
    simp at hc
  | cons y r ih =>
    intro seg hseg c hc
    unfold pySplit at hseg
    by_cases hy : y = sep
    · rw [if_pos hy] at hseg
      rcases List.mem_cons.mp hseg with rfl | hmem
      · simp at hc
      · exact List.mem_cons_of_mem y (ih seg hmem c hc)
    · rw [if_neg hy] at hseg
      cases hsp : pySplit sep r with
      | nil => exact absurd hsp (pySplit_ne_nil sep r)
      | cons l ls =>
        rw [hsp] at hseg
        rcases List.mem_cons.mp hseg with rfl | hmem
        · rcases List.mem_cons.mp hc with rfl | hcx
          · exact List.mem_cons_self c r
          · exact List.mem_cons_of_mem y (ih l (by rw [hsp]; exact List.mem_cons_self l ls) c hcx)
        · exact List.mem_cons_of_mem y
            (ih seg (by rw [hsp]; exact List.mem_cons_of_mem l hmem) c hc)

theorem getLastD_mem (l : List (List Char)) (d : List Char) (h : l ≠ []) :
    l.getLastD d ∈ l := by
  rw [List.getLastD_eq_getLast?]
  have hg := List.getLast_mem_getLast? h
  rw [Option.mem_def] at hg
  rw [hg]
  exact List.getLast_mem h

theorem baseOf_chars (g : List Char) (c : Char) (h : c ∈ baseOf g) : c ∈ g := by
  unfold baseOf at h
  have hmem : (pySplit '.' (stripBrackets g)).getLastD [] ∈
      pySplit '.' (stripBrackets g) :=
    getLastD_mem _ _ (pySplit_ne_nil '.' (stripBrackets g))
  exact mem_stripBrackets g c
    (pySplit_seg_chars '.' (stripBrackets g) _ hmem c h)

theorem isUpperA_asciiLower (d : Char) : isUpperA (asciiLower d) = false := by
  unfold asciiLower
  cases hf : lowerPairs.find? (fun p => p.1 = d) with
  | none =>
    simp only [Option.map_none', Option.getD_none]
    unfold isUpperA
    rw [List.any_eq_false]
    intro p hp
    have := List.find?_eq_none.mp hf p hp
    simpa using this
  | some p =>
    simp only [Option.map_some', Option.getD_some]
    have hmem := List.mem_of_find?_eq_some hf
    have hq : ∀ q ∈ lowerPairs, isUpperA q.2 = false := by decide
    exact hq p hmem

theorem mem_pyLower_not_upper (s : List Char) (c : Char) (h : c ∈ pyLower s) :
    isUpperA c = false := by
  unfold pyLower at h
  obtain ⟨d, _, rfl⟩ := List.mem_map.mp h
  exact isUpperA_asciiLower d

theorem checkTokens_error_of_bad (aset : List (List Char)) :
    ∀ toks : List (List Char),
      (∃ g ∈ toks, aset.contains (baseOf g) = false) →
      ∃ b, checkTokens aset toks = Except.error (notAllowedMsg b) ∧
        (∃ g ∈ toks, baseOf g = b) ∧ aset.contains b = false := by
  intro toks
  induction toks with
  | nil =>
    rintro ⟨g, hg, _⟩
    simp at hg
  | cons g rest ih =>
    rintro ⟨g0, hg0, hbad⟩
    by_cases hc : aset.contains (baseOf g) = true
    · have hrest : ∃ g1 ∈ rest, aset.contains (baseOf g1) = false := by
        rcases List.mem_cons.mp hg0 with rfl | hmem
        · rw [hc] at hbad
          cases hbad
        · exact ⟨g0, hmem, hbad⟩
      obtain ⟨b, hb1, hb2, hb3⟩ := ih hrest
      refine ⟨b, ?_, ?_, hb3⟩
      · unfold checkTokens
        rw [if_pos hc]
        exact hb1
      · obtain ⟨g1, hg1, hgb⟩ := hb2
        exact ⟨g1, List.mem_cons_of_mem _ hg1, hgb⟩
    · have hcf : aset.contains (baseOf g) = false := by
        cases hcc : aset.contains (baseOf g) with
        | false => rfl
        | true => exact absurd hcc hc
      refine ⟨baseOf g, ?_, ⟨g, List.mem_cons_self _ _, rfl⟩, hcf⟩
      unfold checkTokens
      rw [if_neg hc]

theorem checkTokens_ok_iff (aset : List (List Char)) :
    ∀ toks : List (List Char),
      (checkTokens aset toks = Except.ok () ↔
        ∀ g ∈ toks, aset.contains (baseOf g) = true) := by
  intro toks
  induction toks with
  | nil => simp [checkTokens]
  | cons g rest ih =>
    by_cases hc : aset.contains (baseOf g) = true
    · unfold checkTokens
      rw [if_pos hc, ih]
      constructor
      · intro hrest g1 hg1
        rcases List.mem_cons.mp hg1 with rfl | hmem
        · exact hc
        · exact hrest g1 hmem
      · intro hall g1 hg1
        exact hall g1 (List.mem_cons_of_mem _ hg1)
    · unfold checkTokens
      rw [if_neg hc]
      constructor
      · intro hcontra
        cases hcontra
      · intro hall
        exact absurd (hall g (List.mem_cons_self _ _)) hc

/-- Claim C5: with a non-empty allow-list, any SQL whose lowered text
yields a `FROM`/`JOIN` identifier whose base name lies outside the
stripped allow-list entries is rejected, and the error names an offending
base table (the first one scanned). -/
theorem enforce_rejects_disallowed (allowed : List (List Char)) (sql : List Char)
    (hne : allowed ≠ [])
    (h : ∃ g ∈ findTokens (pyLower sql),
      (allowedSet allowed).contains (baseOf g) = false) :
    ∃ b, enforceAllowedTables allowed sql = Except.error (notAllowedMsg b) ∧
      (∃ g ∈ findTokens (pyLower sql), baseOf g = b) ∧
      (allowedSet allowed).contains b = false := by
  unfold enforceAllowedTables
  rw [if_neg (by simp [hne])]
  exact checkTokens_error_of_bad _ _ h

/-- Witness for C5: the allow-list `{candidates, interviews}` rejects
`SELECT * FROM candidates JOIN salaries ON ...` naming `salaries`. -/
theorem enforce_rejects_disallowed_witness :
    (∃ b, enforceAllowedTables ["candidates".toList, "interviews".toList]
        "SELECT * FROM candidates JOIN salaries ON x.id = y.id".toList =
          Except.error (notAllowedMsg b) ∧
      (∃ g ∈ findTokens (pyLower
        "SELECT * FROM candidates JOIN salaries ON x.id = y.id".toList),
        baseOf g = b) ∧
      (allowedSet ["candidates".toList, "interviews".toList]).contains b = false) ∧
    enforceAllowedTables ["candidates".toList, "interviews".toList]
      "SELECT * FROM candidates JOIN salaries ON x.id = y.id".toList =
      Except.error (notAllowedMsg "salaries".toList) :=
  ⟨enforce_rejects_disallowed ["candidates".toList, "interviews".toList]
      "SELECT * FROM candidates JOIN salaries ON x.id = y.id".toList
      (by decide) (by decide),
   by decide⟩

/-- Claim C10 (amended): acceptance is exactly case-sensitive membership
of the (lowercased) base names in the whitespace-stripped allow-list
entries; consequently an entry containing an uppercase letter can never
match any extracted base name — a query referencing that table is
rejected unless a lowercase spelling is separately present in the
allow-list. -/
theorem allowlist_case_sensitivity :
    (∀ (allowed : List (List Char)) (sql : List Char), allowed ≠ [] →
      (enforceAllowedTables allowed sql = Except.ok () ↔
        ∀ g ∈ findTokens (pyLower sql),
          (allowedSet allowed).contains (baseOf g) = true)) ∧
    (∀ (e sql : List Char) (c : Char), c ∈ pyStrip e → isUpperA c = true →
      ∀ g ∈ findTokens (pyLower sql), baseOf g ≠ pyStrip e) := by
  constructor
  · intro allowed sql hne
    unfold enforceAllowedTables
    rw [if_neg (by simp [hne])]
    exact checkTokens_ok_iff _ _
  · intro e sql c hce hcu g hg heq
    have hchar : c ∈ baseOf g := heq ▸ hce
    have hlow : c ∈ pyLower sql :=
      findTokens_chars _ g hg c (baseOf_chars g c hchar)
    rw [mem_pyLower_not_upper _ c hlow] at hcu
    cases hcu

/-- Witness for C10: a lowercase allow-list accepts its own table, and the
uppercase entry `Candidates` matches no extracted base name. -/
theorem allowlist_case_sensitivity_witness :
    enforceAllowedTables ["candidates".toList] "SELECT * FROM candidates".toList =
      Except.ok () ∧
    baseOf "candidates".toList ≠ pyStrip "Candidates".toList :=
  ⟨(allowlist_case_sensitivity.1 ["candidates".toList]
      "SELECT * FROM candidates".toList (by decide)).mpr (by decide),
   allowlist_case_sensitivity.2 "Candidates".toList
     "SELECT * FROM candidates".toList 'C' (by decide) (by decide)
     "candidates".toList (by decide)⟩

/-- Counterexample for C10: with allow-list `{Candidates, candidates}` the
entry `Candidates` contains an uppercase letter, yet the query
`SELECT * FROM Candidates` — which references that table — is *accepted*
(the lowercase twin authorises it), contradicting the claim that every
query referencing the table is rejected. -/
theorem allowlist_uppercase_twin_counterexample :
    isUpperA 'C' = true ∧ 'C' ∈ pyStrip "Candidates".toList ∧
    enforceAllowedTables ["Candidates".toList, "candidates".toList]
      "SELECT * FROM Candidates".toList = Except.ok () := by
  exact ⟨by decide, by decide, by decide⟩

/-! ## Claim C6 -/

/-- Claim C6 (amended): `mask_pii_value` passes null, numeric and boolean
values through unchanged; on text it substitutes every leftmost
non-overlapping email, CPF and phone match with a fixed placeholder,
collapses and trims whitespace, and truncates with an ellipsis when the
result exceeds a non-zero `max_len` (so the result never exceeds
`max_len + 1` characters); on the specification's sample value the masked
output contains neither an email nor a CPF match.  The claim's stronger
guarantee — that *every* textual result is free of email/CPF matches — is
false: truncation can re-expose a CPF-shaped substring (see the
counterexample). -/
theorem maskPii_spec :
    (∀ ml, maskPiiValue PyValue.vNone ml = PyValue.vNone) ∧
    (∀ b ml, maskPiiValue (PyValue.vBool b) ml = PyValue.vBool b) ∧
    (∀ n ml, maskPiiValue (PyValue.vInt n) ml = PyValue.vInt n) ∧
    (∀ r ml, maskPiiValue (PyValue.vFloat r) ml = PyValue.vFloat r) ∧
    (∀ d ml, maskPiiValue (PyValue.vDecimal d) ml = PyValue.vDecimal d) ∧
    (∀ (s : List Char) (n : Nat), 0 < n →
      ∃ r, maskPiiValue (PyValue.vStr s) (some n) = PyValue.vStr r ∧
        r.length ≤ n + 1) ∧
    (maskPiiValue
        (PyValue.vStr "contact: jane@example.com, cpf 123.456.789-01".toList)
        (some 160) = PyValue.vStr "contact: [email], cpf [cpf]".toList ∧
      containsEmail "contact: [email], cpf [cpf]".toList = false ∧
      containsCpf "contact: [email], cpf [cpf]".toList = false) := by
  refine ⟨fun ml => rfl, fun b ml => rfl, fun n ml => rfl, fun r ml => rfl,
    fun d ml => rfl, ?_, by decide, by decide, by decide⟩
  intro s n hn
  refine ⟨truncateEll (some n)
    (pyStrip (collapseWs (pySub matchPhoneAt "[phone]".toList none
      (pySub matchCpfAt "[cpf]".toList none
        (pySub matchEmailAt "[email]".toList none s))))), rfl, ?_⟩
  set s4 := pyStrip (collapseWs (pySub matchPhoneAt "[phone]".toList none
    (pySub matchCpfAt "[cpf]".toList none
      (pySub matchEmailAt "[email]".toList none s)))) with hs4
  unfold truncateEll
  dsimp only
  by_cases hcond : n ≠ 0 ∧ n < s4.length
  · rw [if_pos hcond]
    simp only [List.length_append, List.length_take, List.length_cons,
      List.length_nil]
    omega
  · rw [if_neg hcond]
    have : ¬ n < s4.length := by
      intro hlt
      exact hcond ⟨by omega, hlt⟩
    omega

/-- Counterexample for C6: masking the textual value ` 123.456.789-012`
with `max_len = 14` yields `123.456.789-01…` — the truncation cuts a
12-digit sequence into a string that *does* contain a CPF-pattern match,
contradicting the claim that the masked result never contains one. -/
theorem maskPii_truncation_counterexample :
    maskPiiValue (PyValue.vStr " 123.456.789-012".toList) (some 14) =
      PyValue.vStr "123.456.789-01…".toList ∧
    containsCpf "123.456.789-01…".toList = true := by
  exact ⟨by decide, by decide⟩

/-- Witness for C6: the length bound applied at a concrete value. -/
theorem maskPii_spec_witness :
    ∃ r, maskPiiValue (PyValue.vStr "some long   text value".toList) (some 5) =
      PyValue.vStr r ∧ r.length ≤ 6 :=
  maskPii_spec.2.2.2.2.2.1 "some long   text value".toList 5 (by decide)

/-- Witness for C3: an empty allow-list exports nothing; a non-empty one
exports exactly its enumerated members. -/
theorem exportCatalogTables_spec_witness :
    exportCatalogTables [] (fun t => Except.ok ⟨t, []⟩) ["interviews".toList] = [] ∧
    (exportCatalogTables ["interviews".toList] (fun t => Except.ok ⟨t, []⟩)
      ["interviews".toList, "salaries".toList]).map entryName =
      ["interviews".toList] := by
  constructor
  · exact (exportCatalogTables_spec [] _ _).2.1 rfl
  · have h := (exportCatalogTables_spec ["interviews".toList]
      (fun t => Except.ok ⟨t, []⟩) ["interviews".toList, "salaries".toList]).2.2
      (fun t d hd => by
        have := Except.ok.inj hd
        rw [← this])
    rw [h]
    decide

end NL2SQL
